import Mathlib

/-!
Shallow embedding of the tcfd-dashboard risk server (the current server
revision): the damage-curve evaluator, request-parameter normalization,
asset sanitization, and the risk-calculation pipeline with the hazard
data provider abstracted as explicit outcome arguments.  JavaScript
numbers are modelled as `JSNum` (a finite rational, NaN, or a signed
infinity); sampled hazard depths returned by the provider are modelled
as rationals.
-/

/-- JavaScript number: a finite value, NaN, or a signed infinity. -/
inductive JSNum where
  | fin (q : ℚ)
  | nan
  | posInf
  | negInf
deriving DecidableEq

namespace JSNum

/-- Mirrors JavaScript `Number.isFinite`. -/
def isFinite : JSNum → Bool
  | .fin _ => true
  | _ => false

/-- JavaScript truthiness of a number: `NaN` and `0` are falsy. -/
def truthy : JSNum → Bool
  | .fin q => q != 0
  | .nan => false
  | .posInf => true
  | .negInf => true

end JSNum

/-- Mirrors the JavaScript defaulting idiom `x || d` on numbers. -/
def jsOr (x d : JSNum) : JSNum := if x.truthy then x else d

/-- Mirrors the JavaScript `String.prototype.trim` over the character
list (whitespace stripped from both ends), written so that it evaluates
by kernel reduction. -/
def strTrim (s : String) : String :=
  String.mk (((s.data.dropWhile Char.isWhitespace).reverse.dropWhile
    Char.isWhitespace).reverse)

/-- Mirrors the JavaScript `String.prototype.toLowerCase` over the
character list. -/
def strToLower (s : String) : String := String.mk (s.data.map Char.toLower)

/-- Control point of a depth-damage curve: `{ depth, ratio }`. -/
structure CurvePoint where
  depth : ℚ
  ratio : ℚ
deriving DecidableEq

/-- Linear interpolation formula used in the bracketing branch of
`getDamageRatio`. -/
def interpolate (d : ℚ) (p1 p2 : CurvePoint) : ℚ :=
  p1.ratio + (d - p1.depth) * (p2.ratio - p1.ratio) / (p2.depth - p1.depth)

/-- Scan over consecutive curve points — the `for` loop inside
`getDamageRatio`: the first segment with `p1.depth ≤ d < p2.depth` yields
the interpolated value, and the fall-through result is `0`. -/
def findSegment (d : ℚ) : List CurvePoint → ℚ
  | p1 :: p2 :: rest =>
    if p1.depth ≤ d ∧ d < p2.depth then interpolate d p1 p2
    else findSegment d (p2 :: rest)
  | _ => 0

/-- Embeds `getDamageRatio(depth, curve)`: `0` for non-positive depth,
the last point's `ratio` at or beyond the last point's depth, otherwise
the scan of the curve's segments.  (An empty curve is mapped to `0`; the
source would fault there, and every built-in curve is non-empty.) -/
def getDamageRatio (depth : ℚ) (curve : List CurvePoint) : ℚ :=
  if depth ≤ 0 then 0
  else
    match curve.getLast? with
    | none => 0
    | some mx => if mx.depth ≤ depth then mx.ratio else findSegment depth curve

/-- Embeds `INDUSTRY_DAMAGE_CURVE`. -/
def INDUSTRY_DAMAGE_CURVE : List CurvePoint :=
  [⟨0, 0⟩, ⟨0.5, 0.28⟩, ⟨1, 0.48⟩, ⟨2, 0.72⟩, ⟨3, 0.86⟩,
   ⟨4, 0.91⟩, ⟨5, 0.96⟩, ⟨6, 1⟩]

/-- Embeds `COMMERCIAL_DAMAGE_CURVE`. -/
def COMMERCIAL_DAMAGE_CURVE : List CurvePoint :=
  [⟨0, 0⟩, ⟨0.5, 0.38⟩, ⟨1, 0.54⟩, ⟨1.5, 0.66⟩, ⟨2, 0.76⟩,
   ⟨3, 0.88⟩, ⟨4, 0.94⟩, ⟨5, 0.98⟩, ⟨6, 1⟩]

/-- Asset class of a factory: the `FactoryType` union (`industry` is the
default for anything unrecognized). -/
inductive FactoryType where
  | industry
  | commercial
deriving DecidableEq

/-- Validated asset record, the `Factory` type of the source: 1-based
`pid`, trimmed non-empty `name`, `coords = [lon, lat]`, non-negative
`asset_value`, and an asset class. -/
structure Factory where
  pid : Nat
  name : String
  coords : ℚ × ℚ
  asset_value : ℚ
  type : FactoryType
deriving DecidableEq

/-- Incoming asset row as seen by `sanitizeFactories`, with each field
already coerced the way the source coerces it: `name` is the raw string
(trimmed inside the function), the numeric fields carry the result of
`Number(...)` (so possibly NaN or infinite), and `type` is the raw class
string. -/
structure RawRow where
  name : String
  asset_value : JSNum
  lon : JSNum
  lat : JSNum
  type : String
deriving DecidableEq

/-- Validation and construction applied to the row at 0-based index `idx`
— the body of the `forEach` callback in `sanitizeFactories`: returns the
pushed `Factory` (with `pid = idx + 1`), or `none` when any check makes
the callback return early. -/
def sanitizeRow (idx : Nat) (row : RawRow) : Option Factory :=
  let name := strTrim row.name
  let type : FactoryType :=
    if strToLower (strTrim row.type) = "commercial" then .commercial else .industry
  if name = "" then none
  else
    match row.lat, row.lon, row.asset_value with
    | .fin lat, .fin lon, .fin asset =>
      if lat < -90 ∨ lat > 90 then none
      else if lon < -180 ∨ lon > 180 then none
      else if asset < 0 then none
      else some ⟨idx + 1, name, (lon, lat), asset, type⟩
    | _, _, _ => none

/-- Traversal of the input rows with the running 0-based index — the
`forEach` of `sanitizeFactories`, rows failing validation dropped. -/
def sanitizeAux (idx : Nat) : List RawRow → List Factory
  | [] => []
  | row :: rest =>
    match sanitizeRow idx row with
    | some f => f :: sanitizeAux (idx + 1) rest
    | none => sanitizeAux (idx + 1) rest

/-- Embeds `sanitizeFactories(input)`: a non-array input (modelled as
`none`) yields `[]`, otherwise each row is validated and kept rows are
emitted in input order. -/
def sanitizeFactories (input : Option (List RawRow)) : List Factory :=
  match input with
  | some rows => sanitizeAux 0 rows
  | none => []

/-- Request payload fields consumed by `normalizeParams` and the POST
handler, each already coerced as the source coerces it (`scenario` and
`model` as optional strings, the numeric fields as `Number(...)` results,
`factories` as `none` when absent or not an array). -/
structure RequestBody where
  scenario : Option String
  year : JSNum
  returnPeriod : JSNum
  model : Option String
  bufferMeters : JSNum
  factories : Option (List RawRow)

/-- Normalized query parameters returned by `normalizeParams`. -/
structure NormParams where
  sc : String
  yr : JSNum
  rp : ℚ
  model : String
  bufferM : ℚ
deriving DecidableEq

/-- Supported return periods, `VALID_RPS`. -/
def VALID_RPS : List ℚ := [1, 2, 5, 10, 25, 50, 100, 250, 500, 1000]

/-- Supported hazard model identifiers, `VALID_MODELS`. -/
def VALID_MODELS : List String :=
  ["00000NorESM1-M", "0000GFDL_ESM2M", "0000HadGEM2-ES", "00IPSL-CM5A-LR"]

/-- Embeds `normalizeParams(queryOrBody)`: scenario defaulted through
`||`, year through `Number(year) || 2050`, return period through
`Number(...) || 100` followed by the `VALID_RPS` membership check, model
defaulted and checked against `VALID_MODELS`, and buffer distance zeroed
when non-finite or negative then capped at 50000. -/
def normalizeParams (b : RequestBody) : NormParams :=
  let sc : String :=
    match b.scenario with
    | some s => if s = "" then "rcp8p5" else s
    | none => "rcp8p5"
  let yr : JSNum := jsOr b.year (.fin 2050)
  let rp : ℚ :=
    match jsOr b.returnPeriod (.fin 100) with
    | .fin q => if q ∈ VALID_RPS then q else 100
    | _ => 100
  let model0 : String :=
    match b.model with
    | some s => if s = "" then "0000GFDL_ESM2M" else s
    | none => "0000GFDL_ESM2M"
  let model : String := if model0 ∈ VALID_MODELS then model0 else "0000GFDL_ESM2M"
  let bufferM : ℚ :=
    match b.bufferMeters with
    | .fin q => if q < 0 then 0 else if q > 50000 then 50000 else q
    | _ => 0
  ⟨sc, yr, rp, model, bufferM⟩

/-- One feature of the provider's sampling response: the `pid` property
and the numeric properties read by the result mapper (`inundation_depth`
for point sampling, `mean`/`max` for buffered sampling), each `none`
when absent.  Sampled hazard values are modelled as rationals. -/
structure SampleFeature where
  pid : Option Nat
  inundation_depth : Option ℚ
  mean : Option ℚ
  max : Option ℚ
deriving DecidableEq

/-- Output row of the risk pipeline: the spread factory fields plus the
computed depth, damage and loss fields.  `depth_mean_m`, `depth_max_m`
and `damage_ratio` are `none` in the no-data short-circuit records,
which do not carry them. -/
structure RiskRecord where
  pid : Nat
  name : String
  coords : ℚ × ℚ
  asset_value : ℚ
  type : FactoryType
  depth_m : ℚ
  depth_mean_m : Option ℚ
  depth_max_m : Option ℚ
  depth_stat : String
  damage_ratio : Option ℚ
  financial_loss : ℚ
  risk_level : String
  model_used : String
  return_period : ℚ
  buffer_m : ℚ
deriving DecidableEq

/-- HTTP outcome of the risk pipeline: an error response with a status
code and message, or a JSON list of risk records. -/
inductive RiskResponse where
  | err (status : Nat) (msg : String)
  | ok (records : List RiskRecord)
deriving DecidableEq

/-- Record built for one factory in the `count === 0` short-circuit of
`calculateRisk`: spread factory fields, zero depth and loss, and the
`'No Data'` sentinel risk level. -/
def noDataRecord (model : String) (rp bufferM : ℚ) (f : Factory) : RiskRecord :=
  { pid := f.pid
    name := f.name
    coords := f.coords
    asset_value := f.asset_value
    type := f.type
    depth_m := 0
    depth_mean_m := none
    depth_max_m := none
    depth_stat := if bufferM > 0 then "max" else "point"
    damage_ratio := none
    financial_loss := 0
    risk_level := "No Data"
    model_used := model
    return_period := rp
    buffer_m := bufferM }

/-- Mapper applied to each sampled feature in `calculateRisk`: find the
factory by `pid` (dropping the feature when no factory matches), choose
the risk-driving depth (zonal max when buffered, point sample
otherwise), evaluate the asset class's damage curve, and classify the
loss. -/
def processFeature (factories : List Factory) (model : String)
    (rp bufferM : ℚ) (f : SampleFeature) : Option RiskRecord :=
  match factories.find? (fun x => f.pid = some x.pid) with
  | none => none
  | some factory =>
    let depthPoint := f.inundation_depth.getD 0
    let depthMean := f.mean.getD 0
    let depthMax := f.max.getD 0
    let depth := if bufferM > 0 then depthMax else depthPoint
    let curve :=
      if factory.type = .commercial then COMMERCIAL_DAMAGE_CURVE
      else INDUSTRY_DAMAGE_CURVE
    let damageRatio := getDamageRatio depth curve
    let loss := factory.asset_value * damageRatio
    some
      { pid := factory.pid
        name := factory.name
        coords := factory.coords
        asset_value := factory.asset_value
        type := factory.type
        depth_m := depth
        depth_mean_m := some (if bufferM > 0 then depthMean else depthPoint)
        depth_max_m := some (if bufferM > 0 then depthMax else depthPoint)
        depth_stat := if bufferM > 0 then "max" else "point"
        damage_ratio := some damageRatio
        financial_loss := loss
        risk_level :=
          if loss > 10000000 then "High"
          else if loss > 0 then "Medium" else "Low"
        model_used := model
        return_period := rp
        buffer_m := bufferM }

/-- Embeds `calculateRisk`, with the two asynchronous provider calls
abstracted as explicit outcomes: `sizeOutcome` is what
`dataset.size().evaluate` delivers and `sampleOutcome` what the
sampling `evaluate` delivers.  A provider error becomes a 500 response;
a zero-size dataset short-circuits to the no-data records; otherwise
each returned feature is mapped to a risk record. -/
def calculateRisk (factories : List Factory) (model : String)
    (rp bufferM : ℚ) (sizeOutcome : Except String Nat)
    (sampleOutcome : Except String (List SampleFeature)) : RiskResponse :=
  match sizeOutcome with
  | .error e => .err 500 e
  | .ok 0 => .ok (factories.map (noDataRecord model rp bufferM))
  | .ok (_ + 1) =>
    match sampleOutcome with
    | .error e => .err 500 e
    | .ok feats => .ok (feats.filterMap (processFeature factories model rp bufferM))

/-- Embeds the `POST /api/risk` handler: normalize parameters, sanitize
the uploaded factories, reject the request with a 400 validation error
when no factory survives (before any provider interaction), and
otherwise run `calculateRisk`. -/
def handlePost (b : RequestBody) (sizeOutcome : Except String Nat)
    (sampleOutcome : Except String (List SampleFeature)) : RiskResponse :=
  let p := normalizeParams b
  let factories := sanitizeFactories b.factories
  if factories.isEmpty then
    .err 400
      "No valid factories provided. Include name, lat/lon (or coords), asset_value, and type."
  else calculateRisk factories p.model p.rp p.bufferM sizeOutcome sampleOutcome

section NormalizationClaims

lemma normalizeParams_rp_def (b : RequestBody) :
    (normalizeParams b).rp =
      match jsOr b.returnPeriod (.fin 100) with
      | .fin q => if q ∈ VALID_RPS then q else 100
      | _ => 100 := rfl

lemma normalizeParams_yr_def (b : RequestBody) :
    (normalizeParams b).yr = jsOr b.year (.fin 2050) := rfl

lemma normalizeParams_bufferM_def (b : RequestBody) :
    (normalizeParams b).bufferM =
      match b.bufferMeters with
      | .fin q => if q < 0 then 0 else if q > 50000 then 50000 else q
      | _ => 0 := rfl

/-- C3: for every input return-period value, normalization yields a
member of `VALID_RPS`; a value coercing to a member of the set is kept,
and any other value (NaN, a non-member number, or an infinity) is
replaced with the default 100. -/
theorem normalizeParams_rp_spec (b : RequestBody) :
    (normalizeParams b).rp ∈ VALID_RPS ∧
    (∀ q : ℚ, q ∈ VALID_RPS → b.returnPeriod = .fin q → (normalizeParams b).rp = q) ∧
    ((∀ q : ℚ, q ∈ VALID_RPS → b.returnPeriod ≠ .fin q) → (normalizeParams b).rp = 100) := by
  rw [normalizeParams_rp_def] at *
  cases hb : b.returnPeriod with
  | fin q =>
    by_cases hq : q = 0
    · subst hq
      refine ⟨by norm_num [jsOr, JSNum.truthy, VALID_RPS], ?_, ?_⟩
      · intro q' hq' hfin
        cases hfin
        simp [VALID_RPS] at hq'
      · intro _
        norm_num [jsOr, JSNum.truthy, VALID_RPS]
    · have hj : jsOr (JSNum.fin q) (.fin 100) = .fin q := by
        simp [jsOr, JSNum.truthy, hq]
      rw [hj]
      by_cases hmem : q ∈ VALID_RPS
      · refine ⟨by simp [hmem], ?_, ?_⟩
        · intro q' _ hfin
          cases hfin
          simp [hmem]
        · intro hnone
          exact absurd rfl (hnone q hmem)
      · refine ⟨by simp [hmem]; norm_num [VALID_RPS], ?_, ?_⟩
        · intro q' hq' hfin
          cases hfin
          exact absurd hq' hmem
        · intro _
          simp [hmem]
  | nan =>
    refine ⟨by norm_num [jsOr, JSNum.truthy, VALID_RPS], ?_, fun _ => by
      norm_num [jsOr, JSNum.truthy]⟩
    intro q' _ hfin
    exact absurd hfin (by simp)
  | posInf =>
    refine ⟨by norm_num [jsOr, JSNum.truthy, VALID_RPS], ?_, fun _ => by
      norm_num [jsOr, JSNum.truthy]⟩
    intro q' _ hfin
    exact absurd hfin (by simp)
  | negInf =>
    refine ⟨by norm_num [jsOr, JSNum.truthy, VALID_RPS], ?_, fun _ => by
      norm_num [jsOr, JSNum.truthy]⟩
    intro q' _ hfin
    exact absurd hfin (by simp)

/-- Witness for `normalizeParams_rp_spec` at a concrete request whose
return period coerces to 250. -/
theorem normalizeParams_rp_spec_witness :
    (normalizeParams ⟨none, .nan, .fin 250, none, .nan, none⟩).rp = 250 :=
  (normalizeParams_rp_spec ⟨none, .nan, .fin 250, none, .nan, none⟩).2.1 250
    (by norm_num [VALID_RPS]) rfl

/-- C7: for every input buffer-distance value, the normalized buffer is
0 when the input coerces to a non-finite or negative number, 50000 when
it coerces to a number above 50000, and the coerced value itself
otherwise; the result always lies in [0, 50000]. -/
theorem normalizeParams_bufferM_spec (b : RequestBody) :
    ((b.bufferMeters.isFinite = false ∨ ∃ q : ℚ, b.bufferMeters = .fin q ∧ q < 0) →
      (normalizeParams b).bufferM = 0) ∧
    (∀ q : ℚ, b.bufferMeters = .fin q → 50000 < q → (normalizeParams b).bufferM = 50000) ∧
    (∀ q : ℚ, b.bufferMeters = .fin q → 0 ≤ q → q ≤ 50000 → (normalizeParams b).bufferM = q) ∧
    0 ≤ (normalizeParams b).bufferM ∧ (normalizeParams b).bufferM ≤ 50000 := by
  rw [normalizeParams_bufferM_def] at *
  cases hb : b.bufferMeters with
  | fin q =>
    refine ⟨?_, ?_, ?_, ?_⟩
    · rintro (hnf | ⟨q', hq', hneg⟩)
      · simp [JSNum.isFinite] at hnf
      · injection hq' with h
        subst h
        simp [hneg]
    · intro q' hq' hgt
      injection hq' with h
      subst h
      have h1 : ¬ q < 0 := by linarith
      simp [h1, hgt]
    · intro q' hq' h0 h5
      injection hq' with h
      subst h
      have h1 : ¬ q < 0 := not_lt.mpr h0
      have h2 : ¬ 50000 < q := not_lt.mpr h5
      simp [h1, h2]
    · by_cases h1 : q < 0
      · simp [h1]
      · by_cases h2 : (50000 : ℚ) < q
        · simp [h1, h2]
        · simp [h1, h2]
          push_neg at h1 h2
          exact ⟨h1, h2⟩
  | nan =>
    refine ⟨fun _ => rfl, ?_, ?_, by norm_num⟩ <;>
      · intro q hq
        cases hq
  | posInf =>
    refine ⟨fun _ => rfl, ?_, ?_, by norm_num⟩ <;>
      · intro q hq
        cases hq
  | negInf =>
    refine ⟨fun _ => rfl, ?_, ?_, by norm_num⟩ <;>
      · intro q hq
        cases hq

/-- Witness for `normalizeParams_bufferM_spec`: a NaN buffer normalizes
to 0 and a buffer of 60000 is clamped to 50000. -/
theorem normalizeParams_bufferM_spec_witness :
    (normalizeParams ⟨none, .nan, .nan, none, .nan, none⟩).bufferM = 0 ∧
    (normalizeParams ⟨none, .nan, .nan, none, .fin 60000, none⟩).bufferM = 50000 :=
  ⟨(normalizeParams_bufferM_spec ⟨none, .nan, .nan, none, .nan, none⟩).1 (Or.inl rfl),
   (normalizeParams_bufferM_spec ⟨none, .nan, .nan, none, .fin 60000, none⟩).2.1 60000 rfl
     (by norm_num)⟩

/-- C9 counterexample: the year value 0 coerces to a finite number, yet
normalization replaces it with 2050 (the `Number(year) || 2050` idiom
treats 0 as falsy), refuting the claim that every finite numeric year is
passed through unchanged. -/
theorem normalizeParams_yr_zero_counterexample :
    (JSNum.fin 0).isFinite = true ∧
    (normalizeParams ⟨none, .fin 0, .nan, none, .nan, none⟩).yr = .fin 2050 ∧
    JSNum.fin 2050 ≠ JSNum.fin 0 := by
  refine ⟨rfl, ?_, by norm_num⟩
  rw [normalizeParams_yr_def]
  norm_num [jsOr, JSNum.truthy]

/-- C9 as amended: normalization replaces the coerced year with the
default 2050 exactly when the coerced value is NaN or 0 (the falsy
numbers); every other coerced value, the infinities included, passes
through unchanged. -/
theorem normalizeParams_yr_spec (b : RequestBody) :
    ((b.year = .nan ∨ b.year = .fin 0) → (normalizeParams b).yr = .fin 2050) ∧
    (b.year ≠ .nan → b.year ≠ .fin 0 → (normalizeParams b).yr = b.year) := by
  rw [normalizeParams_yr_def] at *
  cases hb : b.year with
  | fin q =>
    constructor
    · rintro (h | h)
      · cases h
      · cases h
        norm_num [jsOr, JSNum.truthy]
    · intro _ hzero
      have hq : q ≠ 0 := fun h => hzero (by rw [h])
      simp [jsOr, JSNum.truthy, hq]
  | nan => exact ⟨fun _ => rfl, fun hn _ => absurd rfl hn⟩
  | posInf =>
    refine ⟨?_, fun _ _ => rfl⟩
    rintro (h | h) <;> cases h
  | negInf =>
    refine ⟨?_, fun _ _ => rfl⟩
    rintro (h | h) <;> cases h

/-- Witness for `normalizeParams_yr_spec`: a NaN year defaults to 2050
and the finite year 1995 passes through. -/
theorem normalizeParams_yr_spec_witness :
    (normalizeParams ⟨none, .nan, .nan, none, .nan, none⟩).yr = .fin 2050 ∧
    (normalizeParams ⟨none, .fin 1995, .nan, none, .nan, none⟩).yr = .fin 1995 :=
  ⟨(normalizeParams_yr_spec ⟨none, .nan, .nan, none, .nan, none⟩).1 (Or.inl rfl),
   (normalizeParams_yr_spec ⟨none, .fin 1995, .nan, none, .nan, none⟩).2
     (by simp) (by norm_num)⟩

end NormalizationClaims

section PipelineClaims

/-- Concrete validated asset used by the witnesses. -/
def exFactory : Factory := ⟨1, "Plant A", (121.6, 25.0), 50000000, .industry⟩

/-- C2: when the hazard dataset size evaluates to 0, the pipeline does
not error: it answers with a success payload holding one record per
validated asset, positionally matching the asset list, in which the
depth is 0, the financial loss is 0 and the risk level is the sentinel
string "No Data" — whatever the sampling call would have delivered. -/
theorem calculateRisk_noData_spec (factories : List Factory) (model : String)
    (rp bufferM : ℚ) (sampleOutcome : Except String (List SampleFeature)) :
    (∃ records, calculateRisk factories model rp bufferM (Except.ok 0) sampleOutcome =
      .ok records) ∧
    (∀ records, calculateRisk factories model rp bufferM (Except.ok 0) sampleOutcome =
        .ok records →
      records.length = factories.length ∧
      ∀ i (h1 : i < records.length) (h2 : i < factories.length),
        (records.get ⟨i, h1⟩).pid = (factories.get ⟨i, h2⟩).pid ∧
        (records.get ⟨i, h1⟩).depth_m = 0 ∧
        (records.get ⟨i, h1⟩).financial_loss = 0 ∧
        (records.get ⟨i, h1⟩).risk_level = "No Data") := by
  constructor
  · exact ⟨factories.map (noDataRecord model rp bufferM), rfl⟩
  · intro records hrec
    have hrec' : factories.map (noDataRecord model rp bufferM) = records := by
      have : RiskResponse.ok (factories.map (noDataRecord model rp bufferM)) =
          .ok records := hrec
      cases this
      rfl
    subst hrec'
    refine ⟨List.length_map _ _, ?_⟩
    intro i h1 h2
    rw [List.get_map]
    exact ⟨rfl, rfl, rfl, rfl⟩

/-- Witness for `calculateRisk_noData_spec` at one concrete asset and a
zero-size dataset. -/
theorem calculateRisk_noData_spec_witness :
    calculateRisk [exFactory] "0000GFDL_ESM2M" 100 0 (Except.ok 0) (Except.error "boom") =
      .ok [noDataRecord "0000GFDL_ESM2M" 100 0 exFactory] ∧
    (noDataRecord "0000GFDL_ESM2M" 100 0 exFactory).depth_m = 0 ∧
    (noDataRecord "0000GFDL_ESM2M" 100 0 exFactory).financial_loss = 0 ∧
    (noDataRecord "0000GFDL_ESM2M" 100 0 exFactory).risk_level = "No Data" := by
  have h := (calculateRisk_noData_spec [exFactory] "0000GFDL_ESM2M" 100 0
      (Except.error "boom")).2 [noDataRecord "0000GFDL_ESM2M" 100 0 exFactory] rfl
  have h0 := h.2 0 (by norm_num) (by norm_num)
  exact ⟨rfl, h0.2.1, h0.2.2.1, h0.2.2.2⟩

/-- C4: in a sampled record, the risk-driving depth `depth_m` is the
zonal maximum with `depth_stat = "max"` when the buffer distance is
positive, and the point sample with `depth_stat = "point"` when the
buffer distance is 0. -/
theorem processFeature_depth_spec (factories : List Factory) (model : String)
    (rp bufferM : ℚ) (f : SampleFeature) (r : RiskRecord)
    (h : processFeature factories model rp bufferM f = some r) :
    (0 < bufferM →
      r.depth_m = f.max.getD 0 ∧ r.depth_max_m = some r.depth_m ∧ r.depth_stat = "max") ∧
    (bufferM = 0 →
      r.depth_m = f.inundation_depth.getD 0 ∧ r.depth_stat = "point") := by
  unfold processFeature at h
  cases hf : factories.find? (fun x => f.pid = some x.pid) with
  | none => rw [hf] at h; cases h
  | some factory =>
    rw [hf] at h
    injection h with h
    subst h
    constructor
    · intro hpos
      simp [hpos]
    · intro hzero
      subst hzero
      norm_num

/-- Witness for `processFeature_depth_spec`: a buffered sample with
max 0.9 drives the depth, and a point sample with depth 0.2 is reported
as-is. -/
theorem processFeature_depth_spec_witness :
    (∃ r, processFeature [exFactory] "m" 100 300 ⟨some 1, none, some 0.3, some 0.9⟩ = some r ∧
      r.depth_m = 0.9 ∧ r.depth_stat = "max") ∧
    (∃ r, processFeature [exFactory] "m" 100 0 ⟨some 1, some 0.2, none, none⟩ = some r ∧
      r.depth_m = 0.2 ∧ r.depth_stat = "point") := by
  constructor
  · match hr : processFeature [exFactory] "m" 100 300 ⟨some 1, none, some 0.3, some 0.9⟩ with
    | none => exact absurd hr (by simp [processFeature, exFactory])
    | some r =>
      have h := (processFeature_depth_spec [exFactory] "m" 100 300
        ⟨some 1, none, some 0.3, some 0.9⟩ r hr).1 (by norm_num)
      exact ⟨r, rfl, h.1, h.2.2⟩
  · match hr : processFeature [exFactory] "m" 100 0 ⟨some 1, some 0.2, none, none⟩ with
    | none => exact absurd hr (by simp [processFeature, exFactory])
    | some r =>
      have h := (processFeature_depth_spec [exFactory] "m" 100 0
        ⟨some 1, some 0.2, none, none⟩ r hr).2 rfl
      exact ⟨r, rfl, h.1, h.2⟩

/-- C6: a request whose validated asset list is empty (all rows dropped,
or no list supplied) fails immediately with a 400 validation error; the
response does not depend on either provider outcome, so no provider call
is observed and no partial output is produced. -/
theorem handlePost_emptyFactories_spec (b : RequestBody)
    (h : sanitizeFactories b.factories = [])
    (sizeOutcome : Except String Nat)
    (sampleOutcome : Except String (List SampleFeature)) :
    handlePost b sizeOutcome sampleOutcome =
      .err 400
        "No valid factories provided. Include name, lat/lon (or coords), asset_value, and type." := by
  unfold handlePost
  simp [h]

/-- Witness for `handlePost_emptyFactories_spec`: a request without a
factories list is rejected with the 400 error. -/
theorem handlePost_emptyFactories_spec_witness :
    handlePost ⟨none, .nan, .nan, none, .nan, none⟩ (Except.ok 7) (Except.ok []) =
      .err 400
        "No valid factories provided. Include name, lat/lon (or coords), asset_value, and type." :=
  handlePost_emptyFactories_spec ⟨none, .nan, .nan, none, .nan, none⟩ rfl
    (Except.ok 7) (Except.ok [])

end PipelineClaims

section CurveLemmas

/-- Depths strictly increase along the curve. -/
def DepthSorted (c : List CurvePoint) : Prop :=
  c.Pairwise (fun p q => p.depth < q.depth)

/-- Ratios are non-decreasing along the curve. -/
def RatioMono (c : List CurvePoint) : Prop :=
  c.Pairwise (fun p q => p.ratio ≤ q.ratio)

lemma interpolate_ge_left {d : ℚ} {p1 p2 : CurvePoint} (hδ : p1.depth < p2.depth)
    (hd : p1.depth ≤ d) (hr : p1.ratio ≤ p2.ratio) : p1.ratio ≤ interpolate d p1 p2 := by
  unfold interpolate
  have hw : 0 < p2.depth - p1.depth := by linarith
  have h : 0 ≤ (d - p1.depth) * (p2.ratio - p1.ratio) / (p2.depth - p1.depth) :=
    div_nonneg (mul_nonneg (by linarith) (by linarith)) (le_of_lt hw)
  linarith

lemma interpolate_le_right {d : ℚ} {p1 p2 : CurvePoint} (hδ : p1.depth < p2.depth)
    (hd : d ≤ p2.depth) (hr : p1.ratio ≤ p2.ratio) : interpolate d p1 p2 ≤ p2.ratio := by
  unfold interpolate
  have hw : 0 < p2.depth - p1.depth := by linarith
  have h : (d - p1.depth) * (p2.ratio - p1.ratio) / (p2.depth - p1.depth) ≤
      p2.ratio - p1.ratio := by
    rw [div_le_iff hw]
    nlinarith
  linarith

lemma interpolate_le_left {d : ℚ} {p1 p2 : CurvePoint} (hδ : p1.depth < p2.depth)
    (hd : p1.depth ≤ d) (hr : p2.ratio ≤ p1.ratio) : interpolate d p1 p2 ≤ p1.ratio := by
  unfold interpolate
  have hw : 0 < p2.depth - p1.depth := by linarith
  have h : (d - p1.depth) * (p2.ratio - p1.ratio) / (p2.depth - p1.depth) ≤ 0 :=
    div_nonpos_of_nonpos_of_nonneg (mul_nonpos_of_nonneg_of_nonpos (by linarith) (by linarith))
      (le_of_lt hw)
  linarith

lemma interpolate_ge_right {d : ℚ} {p1 p2 : CurvePoint} (hδ : p1.depth < p2.depth)
    (hd : d ≤ p2.depth) (hr : p2.ratio ≤ p1.ratio) : p2.ratio ≤ interpolate d p1 p2 := by
  unfold interpolate
  have hw : 0 < p2.depth - p1.depth := by linarith
  have h : p2.ratio - p1.ratio ≤
      (d - p1.depth) * (p2.ratio - p1.ratio) / (p2.depth - p1.depth) := by
    rw [le_div_iff hw]
    nlinarith
  linarith

lemma interpolate_mono {d1 d2 : ℚ} {p1 p2 : CurvePoint} (hδ : p1.depth < p2.depth)
    (hr : p1.ratio ≤ p2.ratio) (h12 : d1 ≤ d2) :
    interpolate d1 p1 p2 ≤ interpolate d2 p1 p2 := by
  unfold interpolate
  have hw : 0 < p2.depth - p1.depth := by linarith
  have h : (d1 - p1.depth) * (p2.ratio - p1.ratio) / (p2.depth - p1.depth) ≤
      (d2 - p1.depth) * (p2.ratio - p1.ratio) / (p2.depth - p1.depth) :=
    (div_le_div_right hw).mpr (by nlinarith)
  linarith

lemma findSegment_nonneg {d : ℚ} {c : List CurvePoint} (h : ∀ p ∈ c, 0 ≤ p.ratio) :
    0 ≤ findSegment d c := by
  induction c with
  | nil => simp [findSegment]
  | cons p1 rest ih =>
    cases rest with
    | nil => simp [findSegment]
    | cons p2 rest2 =>
      simp only [findSegment]
      split_ifs with hcond
      · obtain ⟨hd1, hd2⟩ := hcond
        have hδ : p1.depth < p2.depth := lt_of_le_of_lt hd1 hd2
        rcases le_total p1.ratio p2.ratio with hr | hr
        · have hi := interpolate_ge_left hδ hd1 hr
          have h1 : 0 ≤ p1.ratio := h p1 (by simp)
          linarith
        · have hi := interpolate_ge_right hδ (le_of_lt hd2) hr
          have h2 : 0 ≤ p2.ratio := h p2 (by simp)
          linarith
      · exact ih fun p hp => h p (List.mem_cons_of_mem _ hp)

lemma findSegment_le {d B : ℚ} {c : List CurvePoint} (hB : 0 ≤ B)
    (h : ∀ p ∈ c, p.ratio ≤ B) : findSegment d c ≤ B := by
  induction c with
  | nil => simpa [findSegment] using hB
  | cons p1 rest ih =>
    cases rest with
    | nil => simpa [findSegment] using hB
    | cons p2 rest2 =>
      simp only [findSegment]
      split_ifs with hcond
      · obtain ⟨hd1, hd2⟩ := hcond
        have hδ : p1.depth < p2.depth := lt_of_le_of_lt hd1 hd2
        rcases le_total p1.ratio p2.ratio with hr | hr
        · have hi := interpolate_le_right hδ (le_of_lt hd2) hr
          have h2 : p2.ratio ≤ B := h p2 (by simp)
          linarith
        · have hi := interpolate_le_left hδ hd1 hr
          have h1 : p1.ratio ≤ B := h p1 (by simp)
          linarith
      · exact ih fun p hp => h p (List.mem_cons_of_mem _ hp)

lemma findSegment_eq_zero {d : ℚ} {c : List CurvePoint} (h : ∀ p ∈ c, d < p.depth) :
    findSegment d c = 0 := by
  induction c with
  | nil => simp [findSegment]
  | cons p1 rest ih =>
    cases rest with
    | nil => simp [findSegment]
    | cons p2 rest2 =>
      simp only [findSegment]
      have h1 : ¬ p1.depth ≤ d := not_le.mpr (h p1 (by simp))
      rw [if_neg (by tauto)]
      exact ih fun p hp => h p (List.mem_cons_of_mem _ hp)

lemma findSegment_lb {d : ℚ} {p : CurvePoint} {rest : List CurvePoint}
    (hs : DepthSorted (p :: rest)) (hm : RatioMono (p :: rest))
    (hd : p.depth ≤ d)
    (hlast : ∀ mx, (p :: rest).getLast? = some mx → d < mx.depth) :
    p.ratio ≤ findSegment d (p :: rest) := by
  induction rest generalizing p with
  | nil =>
    have := hlast p rfl
    linarith
  | cons q rest2 ih =>
    simp only [findSegment]
    have hpq : p.depth < q.depth := (List.pairwise_cons.mp hs).1 q (by simp)
    have hrq : p.ratio ≤ q.ratio := (List.pairwise_cons.mp hm).1 q (by simp)
    split_ifs with hcond
    · exact interpolate_ge_left hpq hd hrq
    · have hqd : q.depth ≤ d := by
        rcases not_and_or.mp hcond with h1 | h2
        · exact absurd hd h1
        · exact not_lt.mp h2
      have ihq := ih (List.pairwise_cons.mp hs).2 (List.pairwise_cons.mp hm).2 hqd
        (fun mx hmx => hlast mx (by rwa [List.getLast?_cons_cons]))
      linarith

lemma head_depth_le_get {c : List CurvePoint} (hs : DepthSorted c)
    (j : Nat) (hj : j < c.length) (hne : c ≠ []) :
    (c.head hne).depth ≤ (c.get ⟨j, hj⟩).depth := by
  cases c with
  | nil => exact absurd rfl hne
  | cons p rest =>
    cases j with
    | zero => simp
    | succ k =>
      have hk : k < rest.length := by simpa using hj
      have hmem : rest.get ⟨k, hk⟩ ∈ rest := List.get_mem rest k hk
      have h := (List.pairwise_cons.mp hs).1 _ hmem
      exact le_of_lt h

lemma findSegment_mono {d1 d2 : ℚ} {c : List CurvePoint}
    (hs : DepthSorted c) (hm : RatioMono c) (hnn : ∀ p ∈ c, 0 ≤ p.ratio)
    (h12 : d1 ≤ d2)
    (hlast : ∀ mx, c.getLast? = some mx → d2 < mx.depth) :
    findSegment d1 c ≤ findSegment d2 c := by
  induction c with
  | nil => simp [findSegment]
  | cons p1 rest ih =>
    cases rest with
    | nil => simp [findSegment]
    | cons p2 rest2 =>
      have hs' : DepthSorted (p2 :: rest2) := (List.pairwise_cons.mp hs).2
      have hm' : RatioMono (p2 :: rest2) := (List.pairwise_cons.mp hm).2
      have hnn' : ∀ p ∈ p2 :: rest2, 0 ≤ p.ratio :=
        fun p hp => hnn p (List.mem_cons_of_mem _ hp)
      have hlast' : ∀ mx, (p2 :: rest2).getLast? = some mx → d2 < mx.depth :=
        fun mx hmx => hlast mx (by rwa [List.getLast?_cons_cons])
      have hp1p2 : p1.depth < p2.depth := (List.pairwise_cons.mp hs).1 p2 (by simp)
      have hr12 : p1.ratio ≤ p2.ratio := (List.pairwise_cons.mp hm).1 p2 (by simp)
      rcases lt_or_le d1 p1.depth with hlt | hge
      · have hzero : findSegment d1 (p1 :: p2 :: rest2) = 0 := by
          apply findSegment_eq_zero
          intro p hp
          rcases List.mem_cons.mp hp with h | h
          · exact h ▸ hlt
          · have h1 : p1.depth < p.depth := (List.pairwise_cons.mp hs).1 p h
            linarith
        rw [hzero]
        exact findSegment_nonneg hnn
      · by_cases hd1p2 : d1 < p2.depth
        · have hcond1 : p1.depth ≤ d1 ∧ d1 < p2.depth := ⟨hge, hd1p2⟩
          simp only [findSegment, if_pos hcond1]
          by_cases hd2p2 : d2 < p2.depth
          · rw [if_pos ⟨le_trans hge h12, hd2p2⟩]
            exact interpolate_mono hp1p2 hr12 h12
          · rw [if_neg (by tauto)]
            have h1 : interpolate d1 p1 p2 ≤ p2.ratio :=
              interpolate_le_right hp1p2 (le_of_lt hd1p2) hr12
            have h2 : p2.ratio ≤ findSegment d2 (p2 :: rest2) :=
              findSegment_lb hs' hm' (not_lt.mp hd2p2) hlast'
            linarith
        · have hp2d1 : p2.depth ≤ d1 := not_lt.mp hd1p2
          have hcf1 : ¬ (p1.depth ≤ d1 ∧ d1 < p2.depth) := by tauto
          have hcf2 : ¬ (p1.depth ≤ d2 ∧ d2 < p2.depth) := by
            rintro ⟨-, h2⟩
            linarith
          simp only [findSegment, if_neg hcf1, if_neg hcf2]
          exact ih hs' hm' hnn' hlast'

lemma findSegment_eq {d : ℚ} {c : List CurvePoint} (hs : DepthSorted c)
    (i : Nat) (hi : i + 1 < c.length)
    (h1 : (c.get ⟨i, Nat.lt_of_succ_lt hi⟩).depth ≤ d)
    (h2 : d < (c.get ⟨i + 1, hi⟩).depth) :
    findSegment d c = interpolate d (c.get ⟨i, Nat.lt_of_succ_lt hi⟩) (c.get ⟨i + 1, hi⟩) := by
  induction c generalizing i with
  | nil => simp at hi
  | cons p1 rest ih =>
    cases rest with
    | nil => simp at hi
    | cons p2 rest2 =>
      cases i with
      | zero =>
        simp only [List.get] at h1 h2 ⊢
        simp only [findSegment]
        rw [if_pos ⟨h1, h2⟩]
      | succ j =>
        have hj : j + 1 < (p2 :: rest2).length := by simpa using hi
        have hhead : p2.depth ≤ ((p2 :: rest2).get ⟨j, Nat.lt_of_succ_lt hj⟩).depth :=
          head_depth_le_get (List.pairwise_cons.mp hs).2 j (Nat.lt_of_succ_lt hj) (by simp)
        have hd2 : p2.depth ≤ d := le_trans hhead h1
        simp only [findSegment]
        rw [if_neg (by rintro ⟨-, hc⟩; linarith)]
        exact ih (List.pairwise_cons.mp hs).2 j hj h1 h2

lemma getLast_mem_of_getLast? {c : List CurvePoint} {mx : CurvePoint}
    (hl : c.getLast? = some mx) : mx ∈ c := by
  have hmem : mx ∈ c.getLast? := by rw [hl]; rfl
  obtain ⟨hne, heq⟩ := List.mem_getLast?_eq_getLast hmem
  exact heq ▸ List.getLast_mem hne

lemma getDamageRatio_nonneg {d : ℚ} {c : List CurvePoint}
    (h : ∀ p ∈ c, 0 ≤ p.ratio) : 0 ≤ getDamageRatio d c := by
  unfold getDamageRatio
  by_cases h0 : d ≤ 0
  · simp [h0]
  · rw [if_neg h0]
    cases hl : c.getLast? with
    | none => simp
    | some mx =>
      have hmem : mx ∈ c := getLast_mem_of_getLast? hl
      show 0 ≤ if mx.depth ≤ d then mx.ratio else findSegment d c
      split_ifs
      · exact h mx hmem
      · exact findSegment_nonneg h

lemma getDamageRatio_le {d B : ℚ} {c : List CurvePoint} (hB : 0 ≤ B)
    (h : ∀ p ∈ c, p.ratio ≤ B) : getDamageRatio d c ≤ B := by
  unfold getDamageRatio
  by_cases h0 : d ≤ 0
  · simpa [h0] using hB
  · rw [if_neg h0]
    cases hl : c.getLast? with
    | none => simpa using hB
    | some mx =>
      have hmem : mx ∈ c := getLast_mem_of_getLast? hl
      show (if mx.depth ≤ d then mx.ratio else findSegment d c) ≤ B
      split_ifs
      · exact h mx hmem
      · exact findSegment_le hB h

end CurveLemmas

section DamageCurveClaims

/-- C1: for a depth-sorted curve with strictly increasing depths,
`getDamageRatio` returns 0 for `d ≤ 0`, the last point's ratio once `d`
reaches the last point's depth, and otherwise the linear interpolation
on a bracketing segment `p1.depth ≤ d < p2.depth`; in particular depth
0.5 on the curve [(0,0),(1,0.5),(2,1.0)] yields ratio 0.25. -/
theorem getDamageRatio_spec (curve : List CurvePoint) (hs : DepthSorted curve)
    (hne : curve ≠ []) :
    (∀ d : ℚ, d ≤ 0 → getDamageRatio d curve = 0) ∧
    (∀ d : ℚ, 0 < d → (curve.getLast hne).depth ≤ d →
      getDamageRatio d curve = (curve.getLast hne).ratio) ∧
    (∀ (d : ℚ) (i : Nat) (hi : i + 1 < curve.length), 0 < d →
      (curve.get ⟨i, Nat.lt_of_succ_lt hi⟩).depth ≤ d →
      d < (curve.get ⟨i + 1, hi⟩).depth →
      getDamageRatio d curve =
        interpolate d (curve.get ⟨i, Nat.lt_of_succ_lt hi⟩) (curve.get ⟨i + 1, hi⟩)) ∧
    getDamageRatio (1/2) [⟨0, 0⟩, ⟨1, 1/2⟩, ⟨2, 1⟩] = 1/4 := by
  have hposdef : ∀ d : ℚ, 0 < d → getDamageRatio d curve =
      if (curve.getLast hne).depth ≤ d then (curve.getLast hne).ratio
      else findSegment d curve := by
    intro d hd
    unfold getDamageRatio
    rw [if_neg (not_le.mpr hd), List.getLast?_eq_getLast_of_ne_nil hne]
  refine ⟨fun d hd => by simp [getDamageRatio, hd], ?_, ?_, by
    norm_num [getDamageRatio, findSegment, interpolate]⟩
  · intro d hd hlast
    rw [hposdef d hd, if_pos hlast]
  · intro d i hi hd h1 h2
    rw [hposdef d hd]
    have hlen : curve.length - 1 < curve.length :=
      Nat.sub_lt (List.length_pos.mpr hne) one_pos
    have hgl : curve.getLast hne = curve.get ⟨curve.length - 1, hlen⟩ :=
      List.getLast_eq_get curve hne
    have hle : (curve.get ⟨i + 1, hi⟩).depth ≤ (curve.getLast hne).depth := by
      rw [hgl]
      rcases lt_or_eq_of_le (Nat.le_sub_one_of_lt hi) with hlt | heq
      · exact le_of_lt (List.pairwise_iff_get.mp hs ⟨i + 1, hi⟩ ⟨curve.length - 1, hlen⟩ hlt)
      · exact le_of_eq (congrArg (fun p => CurvePoint.depth p)
          (congrArg curve.get (Fin.ext heq)))
    rw [if_neg (by push_neg; linarith)]
    exact findSegment_eq hs i hi h1 h2

/-- Witness for `getDamageRatio_spec` on the concrete three-point curve:
the interpolation scenario at depth 0.5 and the saturation clamp at
depth 5. -/
theorem getDamageRatio_spec_witness :
    getDamageRatio (1/2) [⟨0, 0⟩, ⟨1, 1/2⟩, ⟨2, 1⟩] = 1/4 ∧
    getDamageRatio 5 [⟨0, 0⟩, ⟨1, 1/2⟩, ⟨2, 1⟩] = 1 := by
  have h := getDamageRatio_spec [⟨0, 0⟩, ⟨1, 1/2⟩, ⟨2, 1⟩]
    (by norm_num [DepthSorted]) (by simp)
  refine ⟨h.2.2.2, ?_⟩
  have h5 := h.2.1 5 (by norm_num) (by norm_num [List.getLast])
  simpa [List.getLast] using h5

lemma ratio_le_getLast {c : List CurvePoint} (hm : RatioMono c) (hne : c ≠ []) :
    ∀ p ∈ c, p.ratio ≤ (c.getLast hne).ratio := by
  induction c with
  | nil => simp
  | cons a rest ih =>
    intro p hp
    cases rest with
    | nil =>
      rcases List.mem_cons.mp hp with h | h
      · subst h; exact le_refl _
      · simp at h
    | cons b rest2 =>
      have hgl : (a :: b :: rest2).getLast hne = (b :: rest2).getLast (by simp) := rfl
      rw [hgl]
      rcases List.mem_cons.mp hp with h | h
      · subst h
        have hmem : (b :: rest2).getLast (by simp) ∈ b :: rest2 := List.getLast_mem _
        exact (List.pairwise_cons.mp hm).1 _ hmem
      · exact ih (List.pairwise_cons.mp hm).2 (by simp) p h

lemma ratios_nonneg {c : List CurvePoint} (hm : RatioMono c) (hne : c ≠ [])
    (h0 : (c.head hne).ratio = 0) : ∀ p ∈ c, 0 ≤ p.ratio := by
  cases c with
  | nil => simp
  | cons p0 rest =>
    have h0' : p0.ratio = 0 := h0
    intro p hp
    rcases List.mem_cons.mp hp with h | h
    · subst h; exact le_of_eq h0'.symm
    · have := (List.pairwise_cons.mp hm).1 p h
      linarith

/-- C8: for a curve with strictly increasing depths, non-decreasing
ratios and first ratio 0, `getDamageRatio` is monotonically
non-decreasing in depth. -/
theorem getDamageRatio_mono (curve : List CurvePoint) (hs : DepthSorted curve)
    (hm : RatioMono curve) (hne : curve ≠ []) (h0 : (curve.head hne).ratio = 0)
    (d1 d2 : ℚ) (h12 : d1 ≤ d2) :
    getDamageRatio d1 curve ≤ getDamageRatio d2 curve := by
  have hnn : ∀ p ∈ curve, 0 ≤ p.ratio := ratios_nonneg hm hne h0
  by_cases hd1 : d1 ≤ 0
  · rw [getDamageRatio, if_pos hd1]
    exact getDamageRatio_nonneg hnn
  · have hd2 : ¬ d2 ≤ 0 := fun h => hd1 (le_trans h12 h)
    have hdef : ∀ d : ℚ, ¬ d ≤ 0 → getDamageRatio d curve =
        if (curve.getLast hne).depth ≤ d then (curve.getLast hne).ratio
        else findSegment d curve := by
      intro d hd
      unfold getDamageRatio
      rw [if_neg hd, List.getLast?_eq_getLast_of_ne_nil hne]
    rw [hdef d1 hd1, hdef d2 hd2]
    by_cases hx2 : (curve.getLast hne).depth ≤ d2
    · rw [if_pos hx2]
      split_ifs with hx1
      · exact le_refl _
      · exact findSegment_le (hnn _ (List.getLast_mem hne)) (ratio_le_getLast hm hne)
    · rw [if_neg hx2, if_neg (fun h => hx2 (le_trans h h12))]
      refine findSegment_mono hs hm hnn h12 ?_
      intro mx hmx
      rw [List.getLast?_eq_getLast_of_ne_nil hne] at hmx
      injection hmx with hmx
      rw [← hmx]
      exact not_le.mp hx2

/-- Witness for `getDamageRatio_mono` on the industry curve at depths
1 and 2. -/
theorem getDamageRatio_mono_witness :
    getDamageRatio 1 INDUSTRY_DAMAGE_CURVE ≤ getDamageRatio 2 INDUSTRY_DAMAGE_CURVE :=
  getDamageRatio_mono INDUSTRY_DAMAGE_CURVE
    (by norm_num [DepthSorted, INDUSTRY_DAMAGE_CURVE])
    (by norm_num [RatioMono, INDUSTRY_DAMAGE_CURVE])
    (by simp [INDUSTRY_DAMAGE_CURVE])
    (by norm_num [INDUSTRY_DAMAGE_CURVE])
    1 2 (by norm_num)

end DamageCurveClaims

section SanitizeClaims

/-- Validation rule stated by the spec (refinement side of the asset
round-trip claim): non-empty trimmed name, latitude within [-90, 90],
longitude within [-180, 180], and a finite non-negative asset value. -/
def specPassesValidation (row : RawRow) : Prop :=
  strTrim row.name ≠ "" ∧
  (∃ la : ℚ, row.lat = .fin la ∧ -90 ≤ la ∧ la ≤ 90) ∧
  (∃ lo : ℚ, row.lon = .fin lo ∧ -180 ≤ lo ∧ lo ≤ 180) ∧
  (∃ av : ℚ, row.asset_value = .fin av ∧ 0 ≤ av)

lemma sanitizeRow_some_intro (idx : Nat) (row : RawRow) {la lo av : ℚ}
    (hla : row.lat = .fin la) (hlo : row.lon = .fin lo)
    (hav : row.asset_value = .fin av) (hname : strTrim row.name ≠ "")
    (h1 : -90 ≤ la) (h2 : la ≤ 90) (h3 : -180 ≤ lo) (h4 : lo ≤ 180) (h5 : 0 ≤ av) :
    sanitizeRow idx row = some ⟨idx + 1, strTrim row.name, (lo, la), av,
      if strToLower (strTrim row.type) = "commercial" then .commercial else .industry⟩ := by
  unfold sanitizeRow
  rw [if_neg hname, hla, hlo, hav]
  show (if la < -90 ∨ la > 90 then none
    else if lo < -180 ∨ lo > 180 then none
    else if av < 0 then none
    else some (⟨idx + 1, strTrim row.name, (lo, la), av,
      if strToLower (strTrim row.type) = "commercial" then .commercial
      else .industry⟩ : Factory)) = _
  rw [if_neg (by push_neg; exact ⟨h1, h2⟩), if_neg (by push_neg; exact ⟨h3, h4⟩),
    if_neg (not_lt.mpr h5)]

lemma sanitizeRow_some_elim {idx : Nat} {row : RawRow} {f : Factory}
    (h : sanitizeRow idx row = some f) :
    f.pid = idx + 1 ∧ f.name = strTrim row.name ∧ strTrim row.name ≠ "" ∧
    row.lat = .fin f.coords.2 ∧ row.lon = .fin f.coords.1 ∧
    row.asset_value = .fin f.asset_value ∧
    -90 ≤ f.coords.2 ∧ f.coords.2 ≤ 90 ∧ -180 ≤ f.coords.1 ∧ f.coords.1 ≤ 180 ∧
    0 ≤ f.asset_value := by
  unfold sanitizeRow at h
  by_cases hname : strTrim row.name = ""
  · rw [if_pos hname] at h; cases h
  · rw [if_neg hname] at h
    cases hlat : row.lat with
    | fin la =>
      cases hlon : row.lon with
      | fin lo =>
        cases hav : row.asset_value with
        | fin av =>
          rw [hlat, hlon, hav] at h
          have h' : (if la < -90 ∨ la > 90 then none
              else if lo < -180 ∨ lo > 180 then none
              else if av < 0 then none
              else some (⟨idx + 1, strTrim row.name, (lo, la), av,
                if strToLower (strTrim row.type) = "commercial" then .commercial
                else .industry⟩ : Factory)) = some f := h
          by_cases hc1 : la < -90 ∨ la > 90
          · rw [if_pos hc1] at h'; cases h'
          · rw [if_neg hc1] at h'
            by_cases hc2 : lo < -180 ∨ lo > 180
            · rw [if_pos hc2] at h'; cases h'
            · rw [if_neg hc2] at h'
              by_cases hc3 : av < 0
              · rw [if_pos hc3] at h'; cases h'
              · rw [if_neg hc3] at h'
                push_neg at hc1 hc2
                injection h' with h'
                subst h'
                exact ⟨rfl, rfl, hname, rfl, rfl, rfl, hc1.1, hc1.2,
                  hc2.1, hc2.2, not_lt.mp hc3⟩
        | nan => rw [hlat, hlon, hav] at h; cases h
        | posInf => rw [hlat, hlon, hav] at h; cases h
        | negInf => rw [hlat, hlon, hav] at h; cases h
      | nan => rw [hlat, hlon] at h; cases h
      | posInf => rw [hlat, hlon] at h; cases h
      | negInf => rw [hlat, hlon] at h; cases h
    | nan => rw [hlat] at h; cases h
    | posInf => rw [hlat] at h; cases h
    | negInf => rw [hlat] at h; cases h

lemma sanitizeRow_some_of_passes (idx : Nat) {row : RawRow}
    (hp : specPassesValidation row) :
    ∃ f : Factory, sanitizeRow idx row = some f := by
  obtain ⟨hname, ⟨la, hla, h1, h2⟩, ⟨lo, hlo, h3, h4⟩, ⟨av, hav, h5⟩⟩ := hp
  exact ⟨_, sanitizeRow_some_intro idx row hla hlo hav hname h1 h2 h3 h4 h5⟩

lemma sanitizeRow_passes_of_some {idx : Nat} {row : RawRow} {f : Factory}
    (h : sanitizeRow idx row = some f) : specPassesValidation row := by
  obtain ⟨-, -, hname, hla, hlo, hav, hb1, hb2, hb3, hb4, hb5⟩ := sanitizeRow_some_elim h
  exact ⟨hname, ⟨_, hla, hb1, hb2⟩, ⟨_, hlo, hb3, hb4⟩, ⟨_, hav, hb5⟩⟩

lemma mem_sanitizeAux {k : Nat} {rows : List RawRow} {f : Factory} :
    f ∈ sanitizeAux k rows ↔
      ∃ (i : Nat) (hi : i < rows.length), sanitizeRow (k + i) (rows.get ⟨i, hi⟩) = some f := by
  induction rows generalizing k with
  | nil => simp [sanitizeAux]
  | cons row rest ih =>
    constructor
    · intro hf
      unfold sanitizeAux at hf
      cases hr : sanitizeRow k row with
      | some f0 =>
        rw [hr] at hf
        rcases List.mem_cons.mp hf with h | h
        · subst h
          exact ⟨0, by simp, by simpa using hr⟩
        · obtain ⟨j, hj, hjr⟩ := ih.mp h
          refine ⟨j + 1, by simpa using hj, ?_⟩
          have : k + (j + 1) = (k + 1) + j := by omega
          rw [this]
          exact hjr
      | none =>
        rw [hr] at hf
        obtain ⟨j, hj, hjr⟩ := ih.mp hf
        refine ⟨j + 1, by simpa using hj, ?_⟩
        have : k + (j + 1) = (k + 1) + j := by omega
        rw [this]
        exact hjr
    · rintro ⟨i, hi, hir⟩
      unfold sanitizeAux
      cases i with
      | zero =>
        simp only [List.get] at hir
        rw [Nat.add_zero] at hir
        rw [hir]
        exact List.mem_cons_self _ _
      | succ j =>
        have hj : j < rest.length := by simpa using hi
        have hjr : sanitizeRow ((k + 1) + j) (rest.get ⟨j, hj⟩) = some f := by
          have : (k + 1) + j = k + (j + 1) := by omega
          rw [this]
          exact hir
        have hmem : f ∈ sanitizeAux (k + 1) rest := ih.mpr ⟨j, hj, hjr⟩
        cases hr : sanitizeRow k row with
        | some f0 => exact List.mem_cons_of_mem _ hmem
        | none => exact hmem

lemma sanitizeAux_pid_gt {k : Nat} {rows : List RawRow} :
    ∀ f ∈ sanitizeAux k rows, k < f.pid := by
  intro f hf
  obtain ⟨i, hi, hir⟩ := mem_sanitizeAux.mp hf
  have := (sanitizeRow_some_elim hir).1
  omega

lemma sanitizeAux_pid_sorted {k : Nat} {rows : List RawRow} :
    (sanitizeAux k rows).Pairwise (fun a b => a.pid < b.pid) := by
  induction rows generalizing k with
  | nil => simp [sanitizeAux]
  | cons row rest ih =>
    unfold sanitizeAux
    cases hr : sanitizeRow k row with
    | some f0 =>
      refine List.pairwise_cons.mpr ⟨?_, ih⟩
      intro b hb
      have hb' : k + 1 < b.pid := sanitizeAux_pid_gt b hb
      have hf0 : f0.pid = k + 1 := (sanitizeRow_some_elim hr).1
      omega
    | none => exact ih

/-- Row failing validation: latitude 200 is out of range. -/
def badRow : RawRow := ⟨"bad", .fin 1000, .fin 10, .fin 200, "industry"⟩

/-- Row passing validation. -/
def goodRow : RawRow := ⟨"good", .fin 1000, .fin 10, .fin 20, "industry"⟩

/-- C5 counterexample: on the input [badRow, goodRow], where the first
row fails validation (latitude 200), the single kept asset carries id 2
— the id of its input position — not the id 1 the claim's "k-th kept
asset has id k" requires. -/
theorem sanitizeFactories_pid_counterexample :
    (sanitizeFactories (some [badRow, goodRow])).map (fun f => f.pid) = [2] := rfl

/-- C5 as amended: `sanitizeFactories` keeps exactly the rows passing
validation (non-empty trimmed name, latitude in [-90,90], longitude in
[-180,180], finite non-negative asset value); each kept row reappears
with its trimmed name and identical asset value and coordinates while
failing rows are silently dropped; and the asset kept from the input row
at 0-based index i is assigned id i + 1, so ids strictly increase in
input order but are not renumbered after drops. -/
theorem sanitizeFactories_spec (rows : List RawRow) :
    (∀ f ∈ sanitizeFactories (some rows), ∃ (i : Nat) (hi : i < rows.length),
      f.pid = i + 1 ∧ specPassesValidation (rows.get ⟨i, hi⟩) ∧
      f.name = strTrim (rows.get ⟨i, hi⟩).name ∧
      (rows.get ⟨i, hi⟩).asset_value = .fin f.asset_value ∧
      (rows.get ⟨i, hi⟩).lon = .fin f.coords.1 ∧
      (rows.get ⟨i, hi⟩).lat = .fin f.coords.2) ∧
    (∀ (i : Nat) (hi : i < rows.length), specPassesValidation (rows.get ⟨i, hi⟩) →
      ∃ f ∈ sanitizeFactories (some rows),
        f.pid = i + 1 ∧ f.name = strTrim (rows.get ⟨i, hi⟩).name ∧
        (rows.get ⟨i, hi⟩).asset_value = .fin f.asset_value ∧
        (rows.get ⟨i, hi⟩).lon = .fin f.coords.1 ∧
        (rows.get ⟨i, hi⟩).lat = .fin f.coords.2) ∧
    (sanitizeFactories (some rows)).Pairwise (fun a b => a.pid < b.pid) := by
  refine ⟨?_, ?_, sanitizeAux_pid_sorted⟩
  · intro f hf
    obtain ⟨i, hi, hir⟩ := mem_sanitizeAux.mp hf
    rw [Nat.zero_add] at hir
    obtain ⟨hpid, hnm, -, hla, hlo, hav, -⟩ := sanitizeRow_some_elim hir
    exact ⟨i, hi, hpid, sanitizeRow_passes_of_some hir, hnm, hav, hlo, hla⟩
  · intro i hi hp
    obtain ⟨f, hf⟩ := sanitizeRow_some_of_passes i hp
    refine ⟨f, mem_sanitizeAux.mpr ⟨i, hi, by rwa [Nat.zero_add]⟩, ?_⟩
    obtain ⟨hpid, hnm, -, hla, hlo, hav, -⟩ := sanitizeRow_some_elim hf
    exact ⟨hpid, hnm, hav, hlo, hla⟩

/-- Witness for `sanitizeFactories_spec` on the single passing row. -/
theorem sanitizeFactories_spec_witness :
    sanitizeFactories (some [goodRow]) =
      [⟨1, "good", (10, 20), 1000, .industry⟩] := by
  have h := (sanitizeFactories_spec [goodRow]).2.1 0 (by norm_num)
    (by
      refine ⟨by decide, ⟨20, rfl, by norm_num, by norm_num⟩,
        ⟨10, rfl, by norm_num, by norm_num⟩, ⟨1000, rfl, by norm_num⟩⟩)
  rfl

end SanitizeClaims

section LossBoundClaims

lemma sanitizeFactories_asset_nonneg {inp : Option (List RawRow)} :
    ∀ f ∈ sanitizeFactories inp, 0 ≤ f.asset_value := by
  intro f hf
  cases inp with
  | none => simp [sanitizeFactories] at hf
  | some rows =>
    obtain ⟨i, hi, hir⟩ := mem_sanitizeAux.mp hf
    obtain ⟨-, -, -, -, -, -, -, -, -, -, h⟩ := sanitizeRow_some_elim hir
    exact h

lemma industry_ratio_bounds :
    ∀ p ∈ INDUSTRY_DAMAGE_CURVE, 0 ≤ p.ratio ∧ p.ratio ≤ 1 := by
  intro p hp
  simp only [INDUSTRY_DAMAGE_CURVE] at hp
  fin_cases hp <;> constructor <;> norm_num

lemma commercial_ratio_bounds :
    ∀ p ∈ COMMERCIAL_DAMAGE_CURVE, 0 ≤ p.ratio ∧ p.ratio ≤ 1 := by
  intro p hp
  simp only [COMMERCIAL_DAMAGE_CURVE] at hp
  fin_cases hp <;> constructor <;> norm_num

/-- C10: every record emitted for a validated asset carries a damage
ratio within [0, 1] and a financial loss within [0, asset value]: both
built-in curves keep their ratios in [0, 1] and validation guarantees a
non-negative asset value. -/
theorem processFeature_loss_bounds (inp : Option (List RawRow)) (model : String)
    (rp bufferM : ℚ) (f : SampleFeature) (r : RiskRecord)
    (h : processFeature (sanitizeFactories inp) model rp bufferM f = some r) :
    ∃ dr : ℚ, r.damage_ratio = some dr ∧ 0 ≤ dr ∧ dr ≤ 1 ∧
      0 ≤ r.financial_loss ∧ r.financial_loss ≤ r.asset_value := by
  unfold processFeature at h
  cases hf : (sanitizeFactories inp).find? (fun x => f.pid = some x.pid) with
  | none => rw [hf] at h; cases h
  | some factory =>
    rw [hf] at h
    injection h with h
    subst h
    have hmem : factory ∈ sanitizeFactories inp := List.mem_of_find?_eq_some hf
    have hav : 0 ≤ factory.asset_value := sanitizeFactories_asset_nonneg factory hmem
    have hbnd : ∀ p ∈ (if factory.type = .commercial then COMMERCIAL_DAMAGE_CURVE
        else INDUSTRY_DAMAGE_CURVE), 0 ≤ p.ratio ∧ p.ratio ≤ 1 := by
      split_ifs
      · exact commercial_ratio_bounds
      · exact industry_ratio_bounds
    have h0 : 0 ≤ getDamageRatio (if bufferM > 0 then f.max.getD 0
        else f.inundation_depth.getD 0) (if factory.type = .commercial
        then COMMERCIAL_DAMAGE_CURVE else INDUSTRY_DAMAGE_CURVE) :=
      getDamageRatio_nonneg fun p hp => (hbnd p hp).1
    have h1 : getDamageRatio (if bufferM > 0 then f.max.getD 0
        else f.inundation_depth.getD 0) (if factory.type = .commercial
        then COMMERCIAL_DAMAGE_CURVE else INDUSTRY_DAMAGE_CURVE) ≤ 1 :=
      getDamageRatio_le zero_le_one fun p hp => (hbnd p hp).2
    refine ⟨_, rfl, h0, h1, mul_nonneg hav h0, ?_⟩
    calc factory.asset_value * getDamageRatio _ _
        ≤ factory.asset_value * 1 := mul_le_mul_of_nonneg_left h1 hav
      _ = factory.asset_value := mul_one _

/-- Record produced for the witness request: point-sampled depth 2 on
the industry curve gives damage ratio 0.72 and loss 720 on an asset
worth 1000. -/
def exRec : RiskRecord :=
  ⟨1, "good", (10, 20), 1000, .industry, 2, some 2, some 2, "point",
   some 0.72, 720, "Medium", "m", 100, 0⟩

/-- Witness for `processFeature_loss_bounds` at a concrete sampled
feature. -/
theorem processFeature_loss_bounds_witness :
    exRec.damage_ratio = some 0.72 ∧ 0 ≤ (0.72 : ℚ) ∧ (0.72 : ℚ) ≤ 1 ∧
    0 ≤ exRec.financial_loss ∧ exRec.financial_loss ≤ exRec.asset_value := by
  have hlist : sanitizeFactories (some [goodRow]) =
      [⟨1, "good", (10, 20), 1000, .industry⟩] := rfl
  have hpf : processFeature (sanitizeFactories (some [goodRow])) "m" 100 0
      ⟨some 1, some 2, none, none⟩ = some exRec := by
    rw [hlist]
    unfold processFeature
    rw [show ([⟨1, "good", (10, 20), 1000, .industry⟩] : List Factory).find?
      (fun x => (⟨some 1, some 2, none, none⟩ : SampleFeature).pid = some x.pid) =
      some ⟨1, "good", (10, 20), 1000, .industry⟩ from rfl]
    have hgd : getDamageRatio 2 INDUSTRY_DAMAGE_CURVE = 0.72 := by
      norm_num [getDamageRatio, findSegment, interpolate, INDUSTRY_DAMAGE_CURVE]
    have hty : FactoryType.industry ≠ FactoryType.commercial := by decide
    norm_num [exRec, Option.getD, hgd, hty]
  obtain ⟨dr, hdr, h0, h1, h2, h3⟩ :=
    processFeature_loss_bounds (some [goodRow]) "m" 100 0
      ⟨some 1, some 2, none, none⟩ exRec hpf
  have hdr' : dr = 0.72 := by
    have : (some (0.72 : ℚ) : Option ℚ) = some dr := by rw [← hdr]; rfl
    injection this with h
    exact h.symm
  subst hdr'
  exact ⟨rfl, h0, h1, h2, h3⟩

end LossBoundClaims
